import Mathlib

/-!
Verification of the ONNX parser interface (`NvOnnxParser.h`) and the
graph-translation / capability-partitioning engine it specifies.

The repository ships only the public header; the engine behind it
(Model Deserializer, Capability Analyzer, Graph Translator, Weight
Binder, Error Collector) is modelled here from the design document's
words.  Machine integers are modelled as `Int`/`Nat`; the byte buffer
handed to `parse`/`supportsModel` is a `List Nat`; fallible
deserialization returns an `Option`.
-/

namespace NvOnnxParser

/-- The `ErrorCode` enumeration from `NvOnnxParser.h` (lines 72-83):
the type of parser error. -/
inductive ErrorCode : Type
  | kSUCCESS
  | kINTERNAL_ERROR
  | kMEM_ALLOC_FAILED
  | kMODEL_DESERIALIZE_FAILED
  | kINVALID_VALUE
  | kINVALID_GRAPH
  | kINVALID_NODE
  | kUNSUPPORTED_GRAPH
  | kUNSUPPORTED_NODE
  deriving DecidableEq, Repr

/-- The underlying integer value of each `ErrorCode` enumerator, exactly
as assigned in the header (`kSUCCESS = 0`, ..., `kUNSUPPORTED_NODE = 8`). -/
def ErrorCode.val : ErrorCode → Int
  | .kSUCCESS => 0
  | .kINTERNAL_ERROR => 1
  | .kMEM_ALLOC_FAILED => 2
  | .kMODEL_DESERIALIZE_FAILED => 3
  | .kINVALID_VALUE => 4
  | .kINVALID_GRAPH => 5
  | .kINVALID_NODE => 6
  | .kUNSUPPORTED_GRAPH => 7
  | .kUNSUPPORTED_NODE => 8

/-- The template specialization `EnumMax<ErrorCode>()` from the header
(lines 85-89): returns 9. -/
def EnumMaxErrorCode : Int := 9

/-- All declared enumerators of `ErrorCode`, in declaration order. -/
def allErrorCodes : List ErrorCode :=
  [.kSUCCESS, .kINTERNAL_ERROR, .kMEM_ALLOC_FAILED, .kMODEL_DESERIALIZE_FAILED,
   .kINVALID_VALUE, .kINVALID_GRAPH, .kINVALID_NODE, .kUNSUPPORTED_GRAPH,
   .kUNSUPPORTED_NODE]

end NvOnnxParser

namespace NvOnnxParser

/-- Modelled from the spec (section 3, Data Model): a Node has an operator
type (string identifier), ordered input and output tensor-name lists, a
mapping of attribute name to typed value (values abstracted), and a `name`
used as the name of the target layer it is translated into. Its index is
implicit (position in the graph's node sequence). -/
structure Node : Type where
  name : String
  op : String
  inputs : List String
  outputs : List String
  attrs : List (String × Nat)
  deriving DecidableEq, Repr

/-- Modelled from the spec (section 3, Data Model): a Graph is an ordered
sequence of Nodes (file order), named input/output tensors, and the names
of the constant initializer tensors embedded in the model. -/
structure Graph : Type where
  nodes : List Node
  inputs : List String
  outputs : List String
  initializers : List String
  deriving DecidableEq, Repr

/-- `SubGraph_t` from `NvOnnxParser.h` (line 47): a set of node indices
paired with a support flag. -/
abbrev SubGraph : Type := List Nat × Bool

/-- `SubGraphCollection_t` from `NvOnnxParser.h` (line 54): the ordered
sequence of SubGraphs partitioned out of an ONNX graph. -/
abbrev SubGraphCollection : Type := List SubGraph

/-- Modelled from the spec (section 3): a ParserError mirrors the
`IParserError` accessors of the header: error code, description,
originating source file/line/function, and the offending node index
(`-1` as the sentinel when not node-specific). -/
structure ParserError : Type where
  code : ErrorCode
  desc : String
  file : String
  line : Int
  func : String
  node : Int
  deriving DecidableEq, Repr

/-- Modelled from the spec (section 3): a RefitMapEntry records the
(possibly aliased) weight name, the owning target-layer name, and the
role the weight plays in that layer (roles abstracted as `Nat`, standing
for `nvinfer1::WeightsRole`). -/
structure RefitEntry : Type where
  weightName : String
  layerName : String
  role : Nat
  deriving DecidableEq, Repr

/-- Modelled from the spec (sections 3 and 4.5): the mutable state owned by
one parser instance — the append-only ErrorLog, the refit map, and the
target IR graph (abstracted as the ordered list of names of the layers
emitted into it). All persist across calls until cleared or destroyed. -/
structure ParserState : Type where
  errors : List ParserError
  refit : List RefitEntry
  ir : List String
  deriving DecidableEq, Repr

/-- The freshly created parser state: empty ErrorLog, empty refit map,
empty target IR graph. -/
def initState : ParserState := ⟨[], [], []⟩

/-- Modelled from the spec (sections 4.1, 4.2 and 4.3): the external
collaborators a parser instance is configured with — the known-operator
registry, the per-operator attribute-validity predicate of the converter
plug-ins, the converters' required-input check (step 3 of section 4.3: a
node whose required inputs are malformed — wrong count, missing tensor —
raises `INVALID_NODE`), and the Model Deserializer turning a byte buffer
into a Graph Model (`none` on any structural corruption). -/
structure Env : Type where
  registry : List String
  attrValid : Node → Bool
  inputsValid : Node → Bool
  deserialize : List Nat → Option Graph

/-- `IParser::supportsOperator` (header lines 189-197), modelled from the
spec (section 4.2): a conservative existence check over the known-operator
registry. -/
def supportsOperator (env : Env) (opName : String) : Bool :=
  env.registry.contains opName

/-- Modelled from the spec (section 4.2): the per-node support predicate of
the Capability Analyzer — operator identity known to the registry and all
attributes valid for the operator's converter. -/
def nodeSupported (env : Env) (n : Node) : Bool :=
  supportsOperator env n.op && env.attrValid n

end NvOnnxParser

namespace NvOnnxParser

/-- Modelled from the spec (section 4.2): the run-building scan of the
Capability Analyzer. Nodes are visited in declared order starting at
index `i`; the current run is extended while consecutive nodes share the
same support verdict and a new SubGraph entry is started when the verdict
flips. -/
def analyzeFrom (sup : Node → Bool) : Nat → List Node → SubGraphCollection
  | _, [] => []
  | i, n :: rest =>
    match analyzeFrom sup (i + 1) rest with
    | [] => [([i], sup n)]
    | (run, flag) :: tail =>
      if sup n = flag then (i :: run, flag) :: tail
      else ([i], sup n) :: (run, flag) :: tail

/-- Modelled from the spec (section 4.2): `analyze(graph) -> SubGraphCollection`,
the pure read-only capability-analysis pass. -/
def analyze (sup : Node → Bool) (g : Graph) : SubGraphCollection :=
  analyzeFrom sup 0 g.nodes

end NvOnnxParser

namespace NvOnnxParser

/-- Modelled from the spec (section 3, Weight): a tensor name refers to a
Weight when it is resolvable as an externally supplied weight descriptor
or as a graph-embedded initializer (resolution order of section 4.4). -/
def isWeight (g : Graph) (ext : List String) (t : String) : Bool :=
  ext.contains t || g.initializers.contains t

/-- Modelled from the spec (sections 3 and 4.4): the aliasing rule of the
Weight Binder — the k-th (0-indexed) use of a weight name keeps the
unmodified name for k = 0 and gets the name with `_k` appended for k ≥ 1. -/
def aliasName (w : String) (k : Nat) : String :=
  if k = 0 then w else w ++ "_" ++ toString k

/-- Modelled from the spec (section 4.4): bump the per-weight-name usage
counter for weight `w`. -/
def bump (counts : String → Nat) (w : String) : String → Nat :=
  fun x => if x = w then counts x + 1 else counts x

/-- Modelled from the spec (section 4.4): run the Weight Binder over a
sequence of bindings (source weight name, consuming layer name, role),
threading the per-weight-name usage counter and appending one
RefitMapEntry per binding under the aliasing rule. -/
def aliasRun (counts : String → Nat) : List (String × String × Nat) → List RefitEntry
  | [] => []
  | (w, l, r) :: rest =>
    ⟨aliasName w (counts w), l, r⟩ :: aliasRun (bump counts w) rest

/-- Modelled from the spec (section 4.3, step 4): the weight bindings a
single translated node requests — one per input tensor that is a Weight,
consumed by the target layer named after the node, with the input
position as the role. -/
def weightBindings (g : Graph) (ext : List String) (n : Node) : List (String × String × Nat) :=
  n.inputs.enum.filterMap fun p =>
    if isWeight g ext p.2 then some (p.2, n.name, p.1) else none

/-- Modelled from the spec (section 4.4): fold the usage-counter bumps of a
whole binding sequence. -/
def bumpAll (counts : String → Nat) (bs : List (String × String × Nat)) : String → Nat :=
  bs.foldl (fun c b => bump c b.1) counts

/-- Modelled from the spec (section 4.3, step 1): pick the first remaining
node (kept with its declared index) all of whose input tensors are already
available — produced by an already-scheduled node, a graph input, or an
initializer — returning it and the other remaining nodes. `none` when no
node is ready, i.e. every remaining node waits on a cycle or a missing
producer. -/
def pickReady (avail : List String) :
    List (Nat × Node) → Option ((Nat × Node) × List (Nat × Node))
  | [] => none
  | p :: ps =>
    if p.2.inputs.all (fun t => avail.contains t) then some (p, ps)
    else
      match pickReady avail ps with
      | some (q, rest) => some (q, p :: rest)
      | none => none

/-- Modelled from the spec (section 4.3, step 1): Kahn-style scheduling of
the remaining nodes given the currently available tensor names, with fuel
bounding the iteration (one unit per scheduled node). `none` exactly when
some remaining node can never become ready — a cycle or missing
producer. -/
def topoSortFuel : Nat → List String → List (Nat × Node) → Option (List (Nat × Node))
  | _, _, [] => some []
  | 0, _, _ :: _ => none
  | fuel + 1, avail, p :: ps =>
    match pickReady avail (p :: ps) with
    | none => none
    | some (q, rest) =>
      match topoSortFuel fuel (avail ++ q.2.outputs) rest with
      | none => none
      | some order => some (q :: order)

/-- Modelled from the spec (section 4.3, step 1): a topological order of the
graph's nodes (each paired with its declared index) consistent with tensor
producer → consumer dependencies, starting from the graph inputs and
initializers; `none` when the graph has a cycle or a missing producer. -/
def topoOrder (g : Graph) : Option (List (Nat × Node)) :=
  topoSortFuel g.nodes.length (g.inputs ++ g.initializers) g.nodes.enum

/-- Modelled from the spec (section 4.3): the full sequence of weight
bindings a translate call performs, in translation (topological) order —
nodes rejected by the support predicate or the converter's input check
reach no converter and bind no weights, and an aborted translation (no
topological order) binds nothing at all. -/
def bindingSeq (env : Env) (g : Graph) (ext : List String) : List (String × String × Nat) :=
  match topoOrder g with
  | none => []
  | some order =>
    (order.map fun p =>
      if nodeSupported env p.2 && env.inputsValid p.2 then weightBindings g ext p.2
      else []).flatten

/-- The `UNSUPPORTED_NODE` diagnostic raised for node `n` at declared index
`i` (spec section 4.3, step 3). -/
def mkUnsupportedError (i : Nat) (n : Node) : ParserError :=
  ⟨.kUNSUPPORTED_NODE, "No converter registered for op " ++ n.op,
   "ModelImporter.cpp", 0, "parseGraph", Int.ofNat i⟩

/-- The `INVALID_NODE` diagnostic raised for node `n` at declared index `i`
when its required inputs are malformed (spec section 4.3, step 3). -/
def mkInvalidNodeError (i : Nat) (n : Node) : ParserError :=
  ⟨.kINVALID_NODE, "Invalid inputs for node " ++ n.name,
   "ModelImporter.cpp", 0, "parseGraph", Int.ofNat i⟩

/-- The `INVALID_GRAPH` diagnostic raised when the graph admits no
topological order — a cycle or a missing producer (spec section 4.3,
step 1); not node-specific, so the sentinel index `-1`. -/
def invalidGraphError : ParserError :=
  ⟨.kINVALID_GRAPH, "Graph has a cycle or a missing tensor producer",
   "ModelImporter.cpp", 0, "parse", -1⟩

/-- The `MODEL_DESERIALIZE_FAILED` diagnostic raised when the byte buffer
is not a well-formed encoding of the model schema (spec section 4.1);
its node index is the non-node-specific sentinel `-1`. -/
def deserializeFailure : ParserError :=
  ⟨.kMODEL_DESERIALIZE_FAILED, "Failed to parse the model from the byte buffer",
   "ModelImporter.cpp", 0, "parse", -1⟩

/-- Modelled from the spec (section 4.3, steps 2-5): the node-visiting loop
of the Graph Translator over the topologically ordered nodes (each paired
with its declared index) with usage counters `counts`. A node whose
operator fails the support predicate raises `UNSUPPORTED_NODE`; a supported
node whose required inputs the converter rejects raises `INVALID_NODE`;
both carry the node's declared index, and — per the whole-graph policy,
step 5 — visiting continues to accumulate all diagnosable errors.
Otherwise the node's Weight inputs go through the Weight Binder and a
target-IR layer named after the node is emitted. Returns the errors
raised, the RefitMapEntries appended, and the layers emitted. -/
def translateNodes (env : Env) (g : Graph) (ext : List String) :
    List (Nat × Node) → (String → Nat) →
    List ParserError × List RefitEntry × List String
  | [], _ => ([], [], [])
  | (i, n) :: rest, counts =>
    if nodeSupported env n then
      if env.inputsValid n then
        let bs := weightBindings g ext n
        let r := translateNodes env g ext rest (bumpAll counts bs)
        (r.1, aliasRun counts bs ++ r.2.1, n.name :: r.2.2)
      else
        let r := translateNodes env g ext rest counts
        (mkInvalidNodeError i n :: r.1, r.2.1, r.2.2)
    else
      let r := translateNodes env g ext rest counts
      (mkUnsupportedError i n :: r.1, r.2.1, r.2.2)

/-- Modelled from the spec (section 4.3): `translate(graph, externalWeights?)`.
Step 1 first: a graph with no topological order (cycle or missing
producer) is reported as `INVALID_GRAPH` and aborts translation — nothing
is visited, bound, or emitted. Otherwise the nodes are visited in
topological order with fresh usage counters (reset at the start of each
call); the call appends its diagnostics to the instance's ErrorLog, its
RefitMapEntries to the instance's refit map, and its layers to the target
IR, and succeeds only on whole-graph success: no error raised. -/
def translate (env : Env) (g : Graph) (ext : List String) (st : ParserState) :
    Bool × ParserState :=
  match topoOrder g with
  | none => (false, { st with errors := st.errors ++ [invalidGraphError] })
  | some order =>
    let r := translateNodes env g ext order (fun _ => 0)
    (r.1.isEmpty,
     { errors := st.errors ++ r.1, refit := st.refit ++ r.2.1, ir := st.ir ++ r.2.2 })

/-- `IParser::parse` (header lines 141-144), modelled from the spec
(section 6): deserialize the byte buffer and translate in one step; a
malformed buffer raises `MODEL_DESERIALIZE_FAILED` and nothing is
translated. -/
def parse (env : Env) (buf : List Nat) (st : ParserState) : Bool × ParserState :=
  match env.deserialize buf with
  | none => (false, { st with errors := st.errors ++ [deserializeFailure] })
  | some g => translate env g [] st

/-- `IParser::supportsModel` (header lines 166-170), modelled from the spec
(section 6): deserialize and capability-analyze only; produces the
SubGraphCollection and the whole-model verdict without emitting into the
target IR. -/
def supportsModel (env : Env) (buf : List Nat) (st : ParserState) :
    Bool × SubGraphCollection × ParserState :=
  match env.deserialize buf with
  | none => (false, [], { st with errors := st.errors ++ [deserializeFailure] })
  | some g =>
    let c := analyze (nodeSupported env) g
    (c.all (fun sg => sg.2), c, st)

/-- `IParser::getNbErrors` (header lines 201-206): the number of errors
recorded in the instance's ErrorLog. -/
def getNbErrors (st : ParserState) : Int := Int.ofNat st.errors.length

/-- `IParser::getError` (header lines 207-211), bounds-checked as the spec
(section 4.5) directs. -/
def getError (st : ParserState) (i : Nat) : Option ParserError := st.errors[i]?

/-- `IParser::clearErrors` (header lines 212-216): clear the ErrorLog. -/
def clearErrors (st : ParserState) : ParserState := { st with errors := [] }

/-- `IParser::getRefitMap` (header lines 218-233), modelled from the spec
(section 4.4): the count of refittable weights together with the
recorded entries (names, owning layers, roles). -/
def getRefitMap (st : ParserState) : Int × List RefitEntry :=
  (Int.ofNat st.refit.length, st.refit)

end NvOnnxParser

namespace NvOnnxParser

theorem analyzeFrom_flatten (sup : Node → Bool) :
    ∀ (ns : List Node) (i : Nat),
      ((analyzeFrom sup i ns).map Prod.fst).flatten = List.range' i ns.length := by
  intro ns
  induction ns with
  | nil => intro i; rfl
  | cons n rest ih =>
    intro i
    have ihr := ih (i + 1)
    unfold analyzeFrom
    rcases h : analyzeFrom sup (i + 1) rest with _ | ⟨⟨run, flag⟩, tail⟩
    · rw [h] at ihr
      simp only [List.map_nil, List.flatten_nil] at ihr
      simp [List.range'_succ, ← ihr]
    · rw [h] at ihr
      by_cases hs : sup n = flag
      · simp only [hs, if_pos rfl]
        simp only [List.map_cons, List.flatten_cons] at ihr ⊢
        rw [List.length_cons, List.range'_succ, ← ihr]
        simp
      · simp only [if_neg hs]
        simp only [List.map_cons, List.flatten_cons] at ihr ⊢
        rw [List.length_cons, List.range'_succ, ← ihr]
        simp

theorem analyzeFrom_cons_head (sup : Node → Bool) (n : Node) (rest : List Node) (i : Nat) :
    ∃ run tail, analyzeFrom sup i (n :: rest) = (run, sup n) :: tail := by
  unfold analyzeFrom
  rcases analyzeFrom sup (i + 1) rest with _ | ⟨⟨run, flag⟩, tail⟩
  · exact ⟨[i], [], rfl⟩
  · by_cases hs : sup n = flag
    · exact ⟨i :: run, tail, by simp [hs]⟩
    · exact ⟨[i], (run, flag) :: tail, by simp [hs]⟩

theorem analyzeFrom_chain (sup : Node → Bool) :
    ∀ (ns : List Node) (i : Nat),
      List.Chain' (fun a b : SubGraph => a.2 ≠ b.2) (analyzeFrom sup i ns) := by
  intro ns
  induction ns with
  | nil => intro i; simp [analyzeFrom]
  | cons n rest ih =>
    intro i
    cases rest with
    | nil => simp [analyzeFrom]
    | cons m rest2 =>
      obtain ⟨run, tail, h⟩ := analyzeFrom_cons_head sup m rest2 (i + 1)
      have ihr := ih (i + 1)
      rw [h] at ihr
      unfold analyzeFrom
      rw [h]
      dsimp only
      by_cases hs : sup n = sup m
      · rw [if_pos hs]
        rw [List.chain'_cons'] at ihr ⊢
        exact ihr
      · rw [if_neg hs, List.chain'_cons]
        exact ⟨hs, ihr⟩

theorem analyzeFrom_allTrue (sup : Node → Bool) :
    ∀ (ns : List Node) (i : Nat), ns ≠ [] → (∀ n ∈ ns, sup n = true) →
      analyzeFrom sup i ns = [(List.range' i ns.length, true)] := by
  intro ns
  induction ns with
  | nil => intro i hne _; exact absurd rfl hne
  | cons n rest ih =>
    intro i _ hall
    have hn : sup n = true := hall n (List.mem_cons_self n rest)
    cases rest with
    | nil =>
      unfold analyzeFrom
      simp [analyzeFrom, hn, List.range'_succ]
    | cons m rest2 =>
      have ihr := ih (i + 1) (by simp) (fun x hx => hall x (List.mem_cons_of_mem n hx))
      unfold analyzeFrom
      rw [ihr]
      dsimp only
      rw [if_pos hn]
      simp [List.length_cons, List.range'_succ]

end NvOnnxParser

namespace NvOnnxParser

theorem aliasRun_append (bs1 bs2 : List (String × String × Nat)) :
    ∀ counts, aliasRun counts (bs1 ++ bs2)
      = aliasRun counts bs1 ++ aliasRun (bumpAll counts bs1) bs2 := by
  induction bs1 with
  | nil => intro counts; rfl
  | cons b rest ih =>
    intro counts
    obtain ⟨w, l, r⟩ := b
    have hba : bumpAll counts ((w, l, r) :: rest) = bumpAll (bump counts w) rest := rfl
    rw [List.cons_append, aliasRun, aliasRun, ih (bump counts w), List.cons_append, hba]

theorem aliasRun_length (bs : List (String × String × Nat)) :
    ∀ counts, (aliasRun counts bs).length = bs.length := by
  induction bs with
  | nil => intro counts; rfl
  | cons b rest ih =>
    intro counts
    obtain ⟨w, l, r⟩ := b
    simp [aliasRun, ih]

theorem aliasRun_map_layer (bs : List (String × String × Nat)) :
    ∀ counts, (aliasRun counts bs).map RefitEntry.layerName = bs.map fun b => b.2.1 := by
  induction bs with
  | nil => intro counts; rfl
  | cons b rest ih =>
    intro counts
    obtain ⟨w, l, r⟩ := b
    simp [aliasRun, ih]

theorem aliasRun_map_role (bs : List (String × String × Nat)) :
    ∀ counts, (aliasRun counts bs).map RefitEntry.role = bs.map fun b => b.2.2 := by
  induction bs with
  | nil => intro counts; rfl
  | cons b rest ih =>
    intro counts
    obtain ⟨w, l, r⟩ := b
    simp [aliasRun, ih]

theorem aliasRun_filter_names (w : String) :
    ∀ (bs : List (String × String × Nat)) (counts : String → Nat),
      ((aliasRun counts bs).zip bs).filterMap
          (fun p => if p.2.1 = w then some p.1.weightName else none)
        = (List.range' (counts w) (bs.countP fun b => decide (b.1 = w))).map (aliasName w) := by
  intro bs
  induction bs with
  | nil => intro counts; rfl
  | cons b rest ih =>
    intro counts
    obtain ⟨w2, l, r⟩ := b
    by_cases hw : w2 = w
    · subst hw
      have hb : bump counts w2 w2 = counts w2 + 1 := by simp [bump]
      simp only [aliasRun, List.zip_cons_cons, List.filterMap_cons, List.countP_cons,
        if_pos rfl, ih (bump counts w2), hb]
      simp [List.range'_succ]
    · have hw2 : ¬(w = w2) := by intro hx; exact hw hx.symm
      have hb : bump counts w2 w = counts w := by simp [bump, hw2]
      simp only [aliasRun, List.zip_cons_cons, List.filterMap_cons, List.countP_cons,
        if_neg hw, ih (bump counts w2), hb]
      simp [hw, hw2]

theorem translateNodes_refit (env : Env) (g : Graph) (ext : List String) :
    ∀ (ps : List (Nat × Node)) (counts : String → Nat),
      (translateNodes env g ext ps counts).2.1
        = aliasRun counts
            ((ps.map fun p =>
              if nodeSupported env p.2 && env.inputsValid p.2 then weightBindings g ext p.2
              else []).flatten) := by
  intro ps
  induction ps with
  | nil => intro counts; rfl
  | cons p rest ih =>
    intro counts
    obtain ⟨i, n⟩ := p
    by_cases h1 : nodeSupported env n = true
    · by_cases h2 : env.inputsValid n = true
      · simp [translateNodes, h1, h2, aliasRun_append, ih]
      · simp [translateNodes, h1, h2, ih]
    · simp [translateNodes, h1, ih]

theorem translateNodes_errors_nil (env : Env) (g : Graph) (ext : List String) :
    ∀ (ps : List (Nat × Node)) (counts : String → Nat),
      (∀ p ∈ ps, nodeSupported env p.2 = true ∧ env.inputsValid p.2 = true) →
      (translateNodes env g ext ps counts).1 = [] := by
  intro ps
  induction ps with
  | nil => intro counts _; rfl
  | cons p rest ih =>
    intro counts hall
    obtain ⟨i, n⟩ := p
    obtain ⟨h1, h2⟩ := hall (i, n) (List.mem_cons_self _ _)
    simp only [translateNodes, if_pos h1, if_pos h2]
    exact ih _ (fun q hq => hall q (List.mem_cons_of_mem _ hq))

theorem pickReady_mem (avail : List String) :
    ∀ (ps : List (Nat × Node)) (q : Nat × Node) (rest : List (Nat × Node)),
      pickReady avail ps = some (q, rest) → q ∈ ps ∧ ∀ r ∈ rest, r ∈ ps := by
  intro ps
  induction ps with
  | nil => intro q rest h; exact absurd h (by simp [pickReady])
  | cons p ps2 ih =>
    intro q rest h
    unfold pickReady at h
    by_cases hc : p.2.inputs.all (fun t => avail.contains t) = true
    · rw [if_pos hc] at h
      simp only [Option.some.injEq, Prod.mk.injEq] at h
      obtain ⟨rfl, rfl⟩ := h
      exact ⟨List.mem_cons_self _ _, fun r hr => List.mem_cons_of_mem _ hr⟩
    · rw [if_neg hc] at h
      cases hp : pickReady avail ps2 with
      | none => rw [hp] at h; exact absurd h (by simp)
      | some pr =>
        obtain ⟨q2, rest2⟩ := pr
        rw [hp] at h
        simp only [Option.some.injEq, Prod.mk.injEq] at h
        obtain ⟨rfl, rfl⟩ := h
        obtain ⟨hq2, hr2⟩ := ih q2 rest2 hp
        refine ⟨List.mem_cons_of_mem _ hq2, fun r hr => ?_⟩
        rcases List.mem_cons.mp hr with h | h
        · subst h; exact List.mem_cons_self _ _
        · exact List.mem_cons_of_mem _ (hr2 r h)

theorem topoSortFuel_mem :
    ∀ (fuel : Nat) (avail : List String) (ps order : List (Nat × Node)),
      topoSortFuel fuel avail ps = some order → ∀ p ∈ order, p ∈ ps := by
  intro fuel
  induction fuel with
  | zero =>
    intro avail ps order h
    cases ps with
    | nil =>
      simp only [topoSortFuel, Option.some.injEq] at h
      subst h
      intro p hp
      exact absurd hp (by simp)
    | cons a as => exact absurd h (by simp [topoSortFuel])
  | succ fuel ih =>
    intro avail ps order h
    cases ps with
    | nil =>
      simp only [topoSortFuel, Option.some.injEq] at h
      subst h
      intro p hp
      exact absurd hp (by simp)
    | cons a as =>
      unfold topoSortFuel at h
      cases hp : pickReady avail (a :: as) with
      | none => rw [hp] at h; exact absurd h (by simp)
      | some qr =>
        obtain ⟨q, rest⟩ := qr
        rw [hp] at h
        dsimp only at h
        cases ht : topoSortFuel fuel (avail ++ q.2.outputs) rest with
        | none => rw [ht] at h; exact absurd h (by simp)
        | some ord2 =>
          rw [ht] at h
          dsimp only at h
          simp only [Option.some.injEq] at h
          subst h
          obtain ⟨hq, hrest⟩ := pickReady_mem avail (a :: as) q rest hp
          intro p hpm
          rcases List.mem_cons.mp hpm with h | h
          · subst h; exact hq
          · exact hrest p (ih _ rest ord2 ht p h)

theorem mem_enumFrom_snd :
    ∀ (ns : List Node) (k : Nat) (p : Nat × Node), p ∈ ns.enumFrom k → p.2 ∈ ns := by
  intro ns
  induction ns with
  | nil => intro k p hp; exact absurd hp (by simp)
  | cons n rest ih =>
    intro k p hp
    rcases List.mem_cons.mp hp with h | h
    · rw [h]; exact List.mem_cons_self _ _
    · exact List.mem_cons_of_mem _ (ih (k + 1) p h)

theorem mem_enum_snd (ns : List Node) (p : Nat × Node) (hp : p ∈ ns.enum) : p.2 ∈ ns :=
  mem_enumFrom_snd ns 0 p hp

theorem parse_errors_append (env : Env) (buf : List Nat) (st : ParserState) :
    ∃ es, (parse env buf st).2.errors = st.errors ++ es := by
  unfold parse
  rcases env.deserialize buf with _ | g
  · exact ⟨[deserializeFailure], rfl⟩
  · dsimp only
    unfold translate
    rcases topoOrder g with _ | order
    · exact ⟨[invalidGraphError], rfl⟩
    · exact ⟨(translateNodes env g [] order fun _ => 0).1, rfl⟩

end NvOnnxParser

namespace NvOnnxParser

/-- A three-node graph mixing supported and unsupported operators, used to
exercise the Capability Analyzer on a non-trivial partition. -/
def gMixed : Graph :=
  ⟨[⟨"a", "Relu", ["t0"], ["t1"], []⟩,
    ⟨"b", "Foo", ["t1"], ["t2"], []⟩,
    ⟨"c", "Relu", ["t2"], ["t3"], []⟩], ["t0"], ["t3"], []⟩

/-- An environment whose registry knows only `Relu` and whose deserializer
yields `gMixed` for every buffer. -/
def envMixed : Env := ⟨["Relu"], fun _ => true, fun _ => true, fun _ => some gMixed⟩

/-- C1: for every graph, the SubGraphCollection produced by the Capability
Analyzer as returned through `supportsModel` is a partition of the graph's
node indices — the concatenation of its index sets is exactly
`range g.nodes.length` (coverage and order), every node index occurs in it
exactly once (disjointness), and no two adjacent SubGraphs in the sequence
share the same support flag. -/
theorem supportsModel_partition (env : Env) (buf : List Nat) (st : ParserState)
    (g : Graph) (hd : env.deserialize buf = some g) :
    (((supportsModel env buf st).2.1.map Prod.fst).flatten = List.range g.nodes.length) ∧
    (∀ i < g.nodes.length,
      ((supportsModel env buf st).2.1.map Prod.fst).flatten.count i = 1) ∧
    List.Chain' (fun a b : SubGraph => a.2 ≠ b.2) (supportsModel env buf st).2.1 := by
  have hsm : (supportsModel env buf st).2.1 = analyze (nodeSupported env) g := by
    unfold supportsModel
    rw [hd]
  rw [hsm]
  have hfl := analyzeFrom_flatten (nodeSupported env) g.nodes 0
  have hrange : ((analyze (nodeSupported env) g).map Prod.fst).flatten
      = List.range g.nodes.length := by
    unfold analyze
    rw [hfl, ← List.range_eq_range']
  refine ⟨hrange, ?_, analyzeFrom_chain (nodeSupported env) g.nodes 0⟩
  intro i hi
  rw [hrange]
  exact List.count_eq_one_of_mem (List.nodup_range _) (List.mem_range.mpr hi)

/-- C1 witness: instantiated on `gMixed`, whose partition is
`[([0], true), ([1], false), ([2], true)]`. -/
theorem supportsModel_partition_witness :
    envMixed.deserialize [] = some gMixed ∧
    (supportsModel envMixed [] initState).2.1 = [([0], true), ([1], false), ([2], true)] ∧
    ((((supportsModel envMixed [] initState).2.1.map Prod.fst).flatten
        = List.range gMixed.nodes.length) ∧
      (∀ i < gMixed.nodes.length,
        ((supportsModel envMixed [] initState).2.1.map Prod.fst).flatten.count i = 1) ∧
      List.Chain' (fun a b : SubGraph => a.2 ≠ b.2) (supportsModel envMixed [] initState).2.1) :=
  ⟨rfl, by decide, supportsModel_partition envMixed [] initState gMixed rfl⟩

end NvOnnxParser

namespace NvOnnxParser

/-- A graph in which the weight `W` (an embedded initializer) is consumed by
three different target layers. -/
def gW : Graph :=
  ⟨[⟨"layer1", "Conv", ["x", "W"], ["y1"], []⟩,
    ⟨"layer2", "Conv", ["y1", "W"], ["y2"], []⟩,
    ⟨"layer3", "Conv", ["y2", "W"], ["y3"], []⟩], ["x"], ["y3"], ["W"]⟩

/-- An environment whose registry knows `Conv` and whose deserializer yields
`gW` for every buffer. -/
def envW : Env := ⟨["Conv"], fun _ => true, fun _ => true, fun _ => some gW⟩

/-- C2: for a single translate call on a fresh refit map, the map returned by
`getRefitMap` is the Weight Binder's alias pass over the call's binding
sequence; for every weight name `w`, the entries arising from `w` carry, in
first-use order, the names `aliasName w 0, aliasName w 1, ...` — the first
use unmodified and the k-th reuse (k ≥ 1) suffixed `_k` — and every entry
carries its consuming layer's name and role. -/
theorem refitMap_aliasing (env : Env) (buf : List Nat) (st : ParserState)
    (g : Graph) (hd : env.deserialize buf = some g) (hrf : st.refit = []) :
    (getRefitMap (parse env buf st).2).2 = aliasRun (fun _ => 0) (bindingSeq env g []) ∧
    (∀ w : String,
      ((getRefitMap (parse env buf st).2).2.zip (bindingSeq env g [])).filterMap
          (fun p => if p.2.1 = w then some p.1.weightName else none)
        = (List.range ((bindingSeq env g []).countP fun b => decide (b.1 = w))).map
            (aliasName w)) ∧
    (getRefitMap (parse env buf st).2).2.map RefitEntry.layerName
      = (bindingSeq env g []).map (fun b => b.2.1) ∧
    (getRefitMap (parse env buf st).2).2.map RefitEntry.role
      = (bindingSeq env g []).map (fun b => b.2.2) := by
  have hr : (getRefitMap (parse env buf st).2).2
      = aliasRun (fun _ => 0) (bindingSeq env g []) := by
    unfold parse
    rw [hd]
    dsimp only
    unfold translate getRefitMap bindingSeq
    cases htopo : topoOrder g with
    | none =>
      dsimp only
      rw [hrf]
      rfl
    | some order =>
      dsimp only
      rw [hrf, translateNodes_refit env g [] order (fun _ => 0), List.nil_append]
  refine ⟨hr, ?_, ?_, ?_⟩
  · intro w
    rw [hr, aliasRun_filter_names w (bindingSeq env g []) (fun _ => 0),
      List.range_eq_range']
  · rw [hr, aliasRun_map_layer]
  · rw [hr, aliasRun_map_role]

/-- C2 witness: in `gW` the weight `W` is bound into three layers and the
refit map records exactly the names `W`, `W_1`, `W_2`, in first-use order,
with the consuming layers' names and roles. -/
theorem refitMap_aliasing_witness :
    envW.deserialize [] = some gW ∧ initState.refit = [] ∧
    (getRefitMap (parse envW [] initState).2).2
      = aliasRun (fun _ => 0) (bindingSeq envW gW []) ∧
    (getRefitMap (parse envW [] initState).2).2.map RefitEntry.weightName
      = ["W", "W_1", "W_2"] ∧
    (getRefitMap (parse envW [] initState).2).2.map RefitEntry.layerName
      = ["layer1", "layer2", "layer3"] ∧
    (getRefitMap (parse envW [] initState).2).2.map RefitEntry.role = [1, 1, 1] :=
  ⟨rfl, rfl, (refitMap_aliasing envW [] initState gW rfl rfl).1, by decide, by decide,
    by decide⟩

end NvOnnxParser

namespace NvOnnxParser

/-- The empty graph: no nodes. -/
def gEmpty : Graph := ⟨[], [], [], []⟩

/-- An environment whose deserializer yields the empty graph for every
buffer. -/
def envEmptyG : Env := ⟨["Relu"], fun _ => true, fun _ => true, fun _ => some gEmpty⟩

/-- A two-node graph whose every operator is registered in `envAll`. -/
def gAll : Graph :=
  ⟨[⟨"a", "Relu", ["t0"], ["t1"], []⟩,
    ⟨"c", "Relu", ["t1"], ["t2"], []⟩], ["t0"], ["t2"], []⟩

/-- An environment whose registry knows `Relu` and whose deserializer yields
`gAll` for every buffer. -/
def envAll : Env := ⟨["Relu"], fun _ => true, fun _ => true, fun _ => some gAll⟩

/-- A one-node graph whose registered node is a self-loop: its input tensor
is also its own output and is neither a graph input nor an initializer, so
the graph admits no topological order. -/
def gLoopR : Graph := ⟨[⟨"s", "Relu", ["t"], ["t"], []⟩], [], [], []⟩

/-- An environment whose registry knows `Relu` and whose deserializer yields
the registered self-loop graph `gLoopR` for every buffer. -/
def envLoopR : Env := ⟨["Relu"], fun _ => true, fun _ => true, fun _ => some gLoopR⟩

/-- A one-node graph whose registered node has an available input tensor. -/
def gInv : Graph := ⟨[⟨"v", "Relu", ["t0"], ["t1"], []⟩], ["t0"], ["t1"], []⟩

/-- An environment whose registry knows `Relu` but whose converters reject
every node's required inputs, and whose deserializer yields `gInv` for
every buffer. -/
def envInv : Env := ⟨["Relu"], fun _ => true, fun _ => false, fun _ => some gInv⟩

/-- C3 counterexample: three graphs on which every node's operator is
registered and attribute-valid yet the claim's conclusion fails. On the
empty graph the Capability Analyzer returns the empty SubGraphCollection,
not exactly one fully-supported SubGraph. On the registered self-loop graph
`gLoopR` there is no topological order, so translation aborts with
`INVALID_GRAPH` and `parse` returns false. On `gInv` the converter rejects
the node's required inputs, so `parse` raises `INVALID_NODE` and returns
false. -/
theorem supportsModel_fully_supported_cex :
    ((∀ n ∈ gEmpty.nodes, nodeSupported envEmptyG n = true) ∧
      envEmptyG.deserialize [] = some gEmpty ∧
      (supportsModel envEmptyG [] initState).2.1 = [] ∧
      ¬(supportsModel envEmptyG [] initState).2.1.length = 1) ∧
    ((∀ n ∈ gLoopR.nodes, nodeSupported envLoopR n = true) ∧
      envLoopR.deserialize [] = some gLoopR ∧
      (parse envLoopR [] initState).1 = false ∧
      (parse envLoopR [] initState).2.errors = [invalidGraphError]) ∧
    ((∀ n ∈ gInv.nodes, nodeSupported envInv n = true) ∧
      envInv.deserialize [] = some gInv ∧
      (parse envInv [] initState).1 = false ∧
      (parse envInv [] initState).2.errors
        = [mkInvalidNodeError 0 ⟨"v", "Relu", ["t0"], ["t1"], []⟩]) := by
  refine ⟨⟨?_, rfl, rfl, ?_⟩, ⟨?_, rfl, ?_, ?_⟩, ⟨?_, rfl, ?_, ?_⟩⟩ <;> decide

/-- C3 (amended: graphs with at least one node that admit a topological
order and whose converters accept every node's required inputs): if every
node's operator is registered and attribute-valid, `supportsModel` returns
a single fully-supported SubGraph covering all node indices and reports
support, and a subsequent `parse` on the same input returns true and
appends no error to the ErrorLog. -/
theorem supportsModel_fully_supported (env : Env) (buf : List Nat) (st : ParserState)
    (g : Graph) (hd : env.deserialize buf = some g) (hne : g.nodes ≠ [])
    (htopo : topoOrder g ≠ none)
    (hall : ∀ n ∈ g.nodes, nodeSupported env n = true)
    (hinp : ∀ n ∈ g.nodes, env.inputsValid n = true) :
    (supportsModel env buf st).2.1 = [(List.range g.nodes.length, true)] ∧
    (supportsModel env buf st).1 = true ∧
    (parse env buf st).1 = true ∧
    (parse env buf st).2.errors = st.errors := by
  have ha : analyze (nodeSupported env) g = [(List.range' 0 g.nodes.length, true)] :=
    analyzeFrom_allTrue (nodeSupported env) g.nodes 0 hne hall
  refine ⟨?_, ?_, ?_, ?_⟩
  · unfold supportsModel
    rw [hd]
    dsimp only
    rw [ha, List.range_eq_range']
  · unfold supportsModel
    rw [hd]
    dsimp only
    rw [ha]
    rfl
  · unfold parse
    rw [hd]
    dsimp only
    unfold translate
    cases ht : topoOrder g with
    | none => exact absurd ht htopo
    | some order =>
      dsimp only
      have herr : (translateNodes env g [] order fun _ => 0).1 = [] := by
        apply translateNodes_errors_nil
        intro p hp
        have hn : p.2 ∈ g.nodes :=
          mem_enum_snd g.nodes p (topoSortFuel_mem _ _ _ _ ht p hp)
        exact ⟨hall p.2 hn, hinp p.2 hn⟩
      rw [herr]
      rfl
  · unfold parse
    rw [hd]
    dsimp only
    unfold translate
    cases ht : topoOrder g with
    | none => exact absurd ht htopo
    | some order =>
      dsimp only
      have herr : (translateNodes env g [] order fun _ => 0).1 = [] := by
        apply translateNodes_errors_nil
        intro p hp
        have hn : p.2 ∈ g.nodes :=
          mem_enum_snd g.nodes p (topoSortFuel_mem _ _ _ _ ht p hp)
        exact ⟨hall p.2 hn, hinp p.2 hn⟩
      rw [herr, List.append_nil]

/-- C3 witness: instantiated on the fully-supported two-node graph `gAll`,
which is acyclic with all producers present. -/
theorem supportsModel_fully_supported_witness :
    envAll.deserialize [] = some gAll ∧ gAll.nodes ≠ [] ∧
    topoOrder gAll ≠ none ∧
    (∀ n ∈ gAll.nodes, nodeSupported envAll n = true) ∧
    (∀ n ∈ gAll.nodes, envAll.inputsValid n = true) ∧
    ((supportsModel envAll [] initState).2.1 = [(List.range gAll.nodes.length, true)] ∧
      (supportsModel envAll [] initState).1 = true ∧
      (parse envAll [] initState).1 = true ∧
      (parse envAll [] initState).2.errors = initState.errors) :=
  ⟨rfl, by decide, by decide, by decide, by decide,
    supportsModel_fully_supported envAll [] initState gAll rfl (by decide) (by decide)
      (by decide) (by decide)⟩

end NvOnnxParser

namespace NvOnnxParser

/-- A one-node graph whose only node carries the unregistered operator
`Foo`. -/
def gFoo : Graph := ⟨[⟨"f", "Foo", ["t0"], ["t1"], []⟩], ["t0"], ["t1"], []⟩

/-- An environment whose registry does not know `Foo` and whose deserializer
yields `gFoo` for every buffer. -/
def envFoo : Env := ⟨["Relu"], fun _ => true, fun _ => true, fun _ => some gFoo⟩

/-- A one-node graph whose node carries the unregistered operator `Foo` and
is a self-loop: its input tensor is its own output and is neither a graph
input nor an initializer, so the graph admits no topological order. -/
def gLoop : Graph := ⟨[⟨"f", "Foo", ["t"], ["t"], []⟩], [], [], []⟩

/-- An environment whose registry does not know `Foo` and whose deserializer
yields the self-loop graph `gLoop` for every buffer. -/
def envLoop : Env := ⟨["Relu"], fun _ => true, fun _ => true, fun _ => some gLoop⟩

/-- C4 counterexample: a one-node graph with the unregistered operator `Foo`
whose node is a self-loop. Translation aborts with `INVALID_GRAPH` before
any converter dispatch (spec section 4.3, step 1), so `parse` returns false
but the ErrorLog holds no `UNSUPPORTED_NODE` entry at all — against the
claim as stated. -/
theorem unsupported_singleton_cex :
    envLoop.registry.contains "Foo" = false ∧
    envLoop.deserialize [] = some gLoop ∧
    gLoop.nodes = [⟨"f", "Foo", ["t"], ["t"], []⟩] ∧
    (parse envLoop [] initState).1 = false ∧
    (parse envLoop [] initState).2.errors = [invalidGraphError] ∧
    ¬∃ e ∈ (parse envLoop [] initState).2.errors,
      e.code = ErrorCode.kUNSUPPORTED_NODE ∧ e.node = 0 := by
  refine ⟨?_, rfl, rfl, ?_, ?_, ?_⟩ <;> decide

/-- C4 (amended: the node's input tensors must all be graph inputs or
initializers, so the one-node graph admits a topological order): in a graph
whose single node carries the unregistered operator `Foo`,
`supportsOperator "Foo"` is false, the capability partition is the
singleton unsupported SubGraph holding exactly that node's index, and
`parse` returns false having recorded an `UNSUPPORTED_NODE` error whose
node index equals that node's index. -/
theorem unsupported_singleton (env : Env) (buf : List Nat) (st : ParserState)
    (g : Graph) (n : Node) (hd : env.deserialize buf = some g) (hg : g.nodes = [n])
    (hop : n.op = "Foo") (hreg : env.registry.contains "Foo" = false)
    (hin : ∀ t ∈ n.inputs, (g.inputs ++ g.initializers).contains t = true) :
    supportsOperator env "Foo" = false ∧
    (supportsModel env buf st).2.1 = [([0], false)] ∧
    (parse env buf st).1 = false ∧
    ∃ e ∈ (parse env buf st).2.errors,
      e.code = ErrorCode.kUNSUPPORTED_NODE ∧ e.node = 0 := by
  have hso : supportsOperator env "Foo" = false := by
    unfold supportsOperator
    exact hreg
  have hns : nodeSupported env n = false := by
    unfold nodeSupported
    rw [hop, hso]
    rfl
  have hav : n.inputs.all (fun t => (g.inputs ++ g.initializers).contains t) = true :=
    List.all_eq_true.mpr hin
  have htopo : topoOrder g = some [(0, n)] := by
    unfold topoOrder
    rw [hg]
    show topoSortFuel 1 (g.inputs ++ g.initializers) [(0, n)] = some [(0, n)]
    have hp : pickReady (g.inputs ++ g.initializers) [(0, n)] = some ((0, n), []) := by
      unfold pickReady
      split
      · rfl
      · next hc => exact absurd hav hc
    unfold topoSortFuel
    rw [hp]
    rfl
  refine ⟨hso, ?_, ?_, ?_⟩
  · unfold supportsModel
    rw [hd]
    dsimp only
    unfold analyze
    rw [hg]
    simp [analyzeFrom, hns]
  · unfold parse
    rw [hd]
    dsimp only
    unfold translate
    rw [htopo]
    dsimp only
    simp [translateNodes, hns]
  · unfold parse
    rw [hd]
    dsimp only
    unfold translate
    rw [htopo]
    dsimp only
    refine ⟨mkUnsupportedError 0 n, ?_, rfl, rfl⟩
    simp [translateNodes, hns]

/-- C4 witness: instantiated on the one-node graph `gFoo`, whose node's
only input is a graph input. -/
theorem unsupported_singleton_witness :
    envFoo.deserialize [] = some gFoo ∧
    gFoo.nodes = [⟨"f", "Foo", ["t0"], ["t1"], []⟩] ∧
    (∀ t ∈ (⟨"f", "Foo", ["t0"], ["t1"], []⟩ : Node).inputs,
      (gFoo.inputs ++ gFoo.initializers).contains t = true) ∧
    (supportsOperator envFoo "Foo" = false ∧
      (supportsModel envFoo [] initState).2.1 = [([0], false)] ∧
      (parse envFoo [] initState).1 = false ∧
      ∃ e ∈ (parse envFoo [] initState).2.errors,
        e.code = ErrorCode.kUNSUPPORTED_NODE ∧ e.node = 0) :=
  ⟨rfl, rfl, by decide,
    unsupported_singleton envFoo [] initState gFoo ⟨"f", "Foo", ["t0"], ["t1"], []⟩
      rfl rfl rfl rfl (by decide)⟩

end NvOnnxParser

namespace NvOnnxParser

/-- An environment whose deserializer rejects every byte buffer as
malformed. -/
def envBad : Env := ⟨["Relu"], fun _ => true, fun _ => true, fun _ => none⟩

/-- C5: for every byte buffer the Model Deserializer rejects, `parse`
returns false, appends exactly one `MODEL_DESERIALIZE_FAILED` error to the
ErrorLog, and the target IR graph stays empty — no construct is emitted. -/
theorem parse_deserialize_failure (env : Env) (buf : List Nat) (st : ParserState)
    (hd : env.deserialize buf = none) (hir : st.ir = []) :
    (parse env buf st).1 = false ∧
    (parse env buf st).2.errors = st.errors ++ [deserializeFailure] ∧
    deserializeFailure.code = ErrorCode.kMODEL_DESERIALIZE_FAILED ∧
    (parse env buf st).2.ir = [] := by
  unfold parse
  rw [hd]
  exact ⟨rfl, rfl, rfl, hir⟩

/-- C5 witness: instantiated on the rejecting deserializer and the garbage
buffer `[7, 7, 7]` from a fresh parser state. -/
theorem parse_deserialize_failure_witness :
    envBad.deserialize [7, 7, 7] = none ∧ initState.ir = [] ∧
    ((parse envBad [7, 7, 7] initState).1 = false ∧
      (parse envBad [7, 7, 7] initState).2.errors
        = initState.errors ++ [deserializeFailure] ∧
      deserializeFailure.code = ErrorCode.kMODEL_DESERIALIZE_FAILED ∧
      (parse envBad [7, 7, 7] initState).2.ir = []) :=
  ⟨rfl, rfl, parse_deserialize_failure envBad [7, 7, 7] initState rfl rfl⟩

/-- C6: across two consecutive `parse` calls on the same instance with no
intervening `clearErrors`, the ErrorLog after the second call is the
original log followed by the errors of the first call followed by those of
the second — the log is append-only and never implicitly reset. -/
theorem errorLog_append_only (env : Env) (buf1 buf2 : List Nat) (st : ParserState) :
    ∃ e1 e2,
      (parse env buf1 st).2.errors = st.errors ++ e1 ∧
      (parse env buf2 (parse env buf1 st).2).2.errors = st.errors ++ e1 ++ e2 := by
  obtain ⟨e1, h1⟩ := parse_errors_append env buf1 st
  obtain ⟨e2, h2⟩ := parse_errors_append env buf2 (parse env buf1 st).2
  refine ⟨e1, e2, h1, ?_⟩
  rw [h2, h1]

/-- C7: for every parser state, however many errors were recorded,
`clearErrors` followed by `getNbErrors` returns 0. -/
theorem clearErrors_resets_count (st : ParserState) :
    getNbErrors (clearErrors st) = 0 := rfl

/-- C8: `supportsModel` is a read-only capability pass: it emits no
construct into the target IR and records no refit entry — in this
embedding the source Graph Model is an immutable value, so only the
instance-owned target state can change, and it does not. -/
theorem supportsModel_frame (env : Env) (buf : List Nat) (st : ParserState) :
    (supportsModel env buf st).2.2.ir = st.ir ∧
    (supportsModel env buf st).2.2.refit = st.refit := by
  unfold supportsModel
  rcases env.deserialize buf with _ | g
  · exact ⟨rfl, rfl⟩
  · exact ⟨rfl, rfl⟩

/-- C9: `supportsOperator` is a conservative over-approximation: whenever a
node passes the full per-node support predicate, its operator name passes
`supportsOperator` (no false negatives), while there are an environment and
a node whose operator passes `supportsOperator` although the node itself is
not translatable (false positives are permitted). -/
theorem supportsOperator_conservative :
    (∀ (env : Env) (n : Node),
      nodeSupported env n = true → supportsOperator env n.op = true) ∧
    (∃ (env : Env) (n : Node),
      supportsOperator env n.op = true ∧ nodeSupported env n = false) := by
  constructor
  · intro env n h
    unfold nodeSupported at h
    exact (Bool.and_eq_true _ _ |>.mp h).1
  · exact ⟨⟨["Foo"], fun _ => false, fun _ => true, fun _ => none⟩,
      ⟨"n0", "Foo", [], [], []⟩, rfl, rfl⟩

end NvOnnxParser

namespace NvOnnxParser

/-- C10: `EnumMax<ErrorCode>()` returns 9; `kSUCCESS = 0`; the nine declared
enumerators carry the consecutive values 0 through 8, so every value lies in
`[0, 9)` and `EnumMax` is exactly one past the largest enumerator. -/
theorem errorCode_enum_values :
    EnumMaxErrorCode = 9 ∧
    ErrorCode.val .kSUCCESS = 0 ∧
    allErrorCodes.map ErrorCode.val = [0, 1, 2, 3, 4, 5, 6, 7, 8] ∧
    (∀ c : ErrorCode, 0 ≤ c.val ∧ c.val < EnumMaxErrorCode) ∧
    (allErrorCodes.map ErrorCode.val).maximum = some (EnumMaxErrorCode - 1) := by
  refine ⟨rfl, rfl, rfl, fun c => by cases c <;> exact ⟨by decide, by decide⟩, ?_⟩
  decide

end NvOnnxParser
